import Mathlib

/-!
Verification of the BallSortAI solver core
(`src/ballsort_sat_iterative_solver.py`).

The embedding below mirrors the Python source:

* a puzzle state (`BallSortState`) is the tuple of tubes, each tube a
  sequence of ball colors listed bottom to top;
* the rules engine is `is_solved`, `get_legal_moves` and `apply_move`
  from class `BallSortPuzzle`; the module constant `MAX_CAPACITY` is
  the capacity bound `C` used by `get_legal_moves`, kept as an explicit
  parameter so that instances with other capacities can be stated;
* the SQLite-backed `StateGraphDB` becomes `GraphDB`: the `states`
  table in insertion order (the AUTOINCREMENT id of `states[i]` is
  `i + 1`) and the `transitions` table in insertion order;
* `build_graph` is the source's BFS loop, written with explicit fuel;
  a `none` result models either fuel exhaustion or an uncaught Python
  exception inside the loop;
* `CPPathSolver.build_model`/`solve` become `cp_solve`: the CP-SAT
  engine, an external library, is modelled by a complete exhaustive
  search over all assignments of the model's variables, which is the
  contract the design demands of it (soundness and completeness over
  the materialized graph);
* the `__main__` iterative-deepening loop becomes `driver_loop` /
  `solve_pipeline`.

Failure of a Python operation (IndexError from popping an empty list,
a missing row, a ValueError) is modelled by `Option`.
-/

namespace BallSort

/-- A puzzle state, mirroring class `BallSortState`: the tuple of tubes,
each tube a tuple of ball colors from bottom (head) to top (last). -/
abbrev BallSortState := List (List Nat)

/-- Module constant `MAX_CAPACITY = 6`. -/
def MAX_CAPACITY : Nat := 6

/-- A move, mirroring class `Move`: top ball of tube `src` goes to tube
`dst`; `color` records the moved ball's color. -/
structure Move where
  src : Nat
  dst : Nat
  color : Nat
deriving DecidableEq, Repr

/-- Method `BallSortPuzzle.is_solved`: every non-empty tube is pure, i.e.
all its balls equal its bottom ball `tube[0]`. -/
def is_solved (s : BallSortState) : Bool :=
  s.all fun tube =>
    match tube with
    | [] => true
    | b :: _ => tube.all fun ball => ball == b

/-- Method `BallSortPuzzle.get_legal_moves`, with the capacity
`MAX_CAPACITY` as parameter `C`.  `self.num_tubes` equals the tube count
of every state the puzzle manipulates, so the `src`/`dst` loops run over
`List.range s.length`.  A pair is emitted when `src ≠ dst`, the source
tube is non-empty (its top ball is the moved `ball`), the destination
holds fewer than `C` balls, and the destination is empty or its top ball
equals `ball`. -/
def get_legal_moves (C : Nat) (s : BallSortState) : List Move :=
  (List.range s.length).flatMap fun src =>
    let tube_src := s.getD src []
    match tube_src.getLast? with
    | none => []
    | some ball =>
      (List.range s.length).filterMap fun dst =>
        if src = dst then none
        else
          let tube_dst := s.getD dst []
          if C ≤ tube_dst.length then none
          else if tube_dst ≠ [] ∧ tube_dst.getLast? ≠ some ball then none
          else some ⟨src, dst, ball⟩

/-- Method `BallSortPuzzle.apply_move`: pop the top ball of tube
`m.src`, append it on tube `m.dst`.  `none` models the IndexError
raised when the source tube is missing or empty, or the destination
tube is missing; there is no capacity check.  The pop is performed
before the append (on `s1`), so `m.src = m.dst` leaves the tube
unchanged, mirroring the aliased Python lists. -/
def apply_move (s : BallSortState) (m : Move) : Option BallSortState :=
  match s[m.src]? with
  | none => none
  | some tube_src =>
    match tube_src.getLast? with
    | none => none
    | some ball =>
      let s1 := s.set m.src tube_src.dropLast
      match s1[m.dst]? with
      | none => none
      | some tube_dst => some (s1.set m.dst (tube_dst ++ [ball]))

/-- The `StateGraphDB` store: the `states` table rows in insertion order
(the AUTOINCREMENT id of `states[i]` is `i + 1`) and the `transitions`
table rows `(from_state, to_state, move)` in insertion order.  The TEXT
key `str(state.tubes)` is injective on nested tuples of ints, so the
UNIQUE constraint on it coincides with structural equality of states. -/
structure GraphDB where
  states : List BallSortState
  transitions : List (Nat × Nat × Move)
deriving DecidableEq

/-- A fresh database, as created by `__main__` on a fresh file. -/
def emptyDB : GraphDB := ⟨[], []⟩

/-- Method `StateGraphDB.insert_state`: return the id of an existing row
with the same state, otherwise append a new row and return its id. -/
def insert_state (db : GraphDB) (s : BallSortState) : GraphDB × Nat :=
  match db.states.findIdx? (fun t => decide (t = s)) with
  | some i => (db, i + 1)
  | none => (⟨db.states ++ [s], db.transitions⟩, db.states.length + 1)

/-- Method `StateGraphDB.insert_transition`: append an edge row. -/
def insert_transition (db : GraphDB) (fromId toId : Nat) (m : Move) : GraphDB :=
  ⟨db.states, db.transitions ++ [(fromId, toId, m)]⟩

/-- Method `StateGraphDB.get_state_by_id`: the row with id `i` (ids are
1-based). -/
def get_state_by_id (db : GraphDB) (i : Nat) : Option BallSortState :=
  if i = 0 then none else db.states[i - 1]?

/-- Method `StateGraphDB.get_initial_state_id` for initial state `init`;
`none` models the sentinel `-1` returned when the row is absent. -/
def get_initial_state_id (db : GraphDB) (init : BallSortState) : Option Nat :=
  (db.states.findIdx? (fun t => decide (t = init))).map (· + 1)

/-- Method `StateGraphDB.get_transition_move`: the first recorded edge
row from `f` to `t` (`SELECT ... LIMIT 1` in insertion order). -/
def get_transition_move (db : GraphDB) (f t : Nat) : Option Move :=
  (db.transitions.find? fun tr => decide (tr.1 = f) && decide (tr.2.1 = t)).map
    fun tr => tr.2.2

/-- Method `CPModelInterpreter.extract_moves`: for each consecutive pair
of the path look up a recorded move; fail if any pair has none. -/
def extract_moves (db : GraphDB) : List Nat → Option (List Move)
  | [] => some []
  | [_] => some []
  | a :: b :: rest =>
    match get_transition_move db a b with
    | none => none
    | some m =>
      match extract_moves db (b :: rest) with
      | none => none
      | some ms => some (m :: ms)

/-- Body of the `for move in moves` loop inside
`StateGraphDB.build_graph`: apply the move, intern the successor, record
the edge, and enqueue the successor if unvisited. -/
def expand (st : BallSortState) (sid depth : Nat) :
    List Move → GraphDB → List (Nat × Nat) → List Nat →
    Option (GraphDB × List (Nat × Nat) × List Nat)
  | [], db, queue, visited => some (db, queue, visited)
  | m :: ms, db, queue, visited =>
    match apply_move st m with
    | none => none
    | some new_state =>
      let p := insert_state db new_state
      let db2 := insert_transition p.1 sid p.2 m
      if p.2 ∈ visited then expand st sid depth ms db2 queue visited
      else expand st sid depth ms db2 (queue ++ [(p.2, depth + 1)]) (visited ++ [p.2])

/-- The BFS while-loop of `StateGraphDB.build_graph`, with explicit
fuel; each popped queue element consumes one unit.  `none` models fuel
exhaustion or an exception while applying a move. -/
def build_loop (C maxDepth : Nat) :
    Nat → GraphDB → List (Nat × Nat) → List Nat → Option GraphDB
  | 0, _, _, _ => none
  | _ + 1, db, [], _ => some db
  | fuel + 1, db, (sid, depth) :: queue, visited =>
    if maxDepth ≤ depth then build_loop C maxDepth fuel db queue visited
    else
      match get_state_by_id db sid with
      | none => build_loop C maxDepth fuel db queue visited
      | some st =>
        match expand st sid depth (get_legal_moves C st) db queue visited with
        | none => none
        | some (db2, q2, v2) => build_loop C maxDepth fuel db2 q2 v2

/-- Method `StateGraphDB.build_graph` run on a fresh database, as in
`__main__`: intern the initial state, seed the queue with it at depth 0
and the visited set with its id, then run the BFS loop. -/
def build_graph (C : Nat) (init : BallSortState) (maxDepth fuel : Nat) :
    Option GraphDB :=
  let p := insert_state emptyDB init
  build_loop C maxDepth fuel p.1 [(p.2, 0)] [p.2]

/-- The `solved_indices` computed in `CPPathSolver.build_model`: dense
indices (id minus 1) of the stored states satisfying `is_solved`. -/
def solved_indices (db : GraphDB) : List Nat :=
  (List.range db.states.length).filter fun i =>
    match get_state_by_id db (i + 1) with
    | some st => is_solved st
    | none => false

/-- The `allowed_transitions` of `CPPathSolver.build_model`: recorded
edges whose endpoints are mapped ids (here: ids in `1..num_states`),
translated to dense index pairs. -/
def allowed_transition_pairs (db : GraphDB) : List (Nat × Nat) :=
  db.transitions.filterMap fun tr =>
    if 1 ≤ tr.1 ∧ tr.1 ≤ db.states.length ∧ 1 ≤ tr.2.1 ∧ tr.2.1 ≤ db.states.length
    then some (tr.1 - 1, tr.2.1 - 1) else none

/-- The `h` pairwise table constraints of the CP model: every pair of
consecutive variables lies in the allowed-transition table. -/
def chainOK (trans : List (Nat × Nat)) : List Nat → Bool
  | [] => true
  | [_] => true
  | a :: b :: rest =>
    trans.any (fun p => decide (p.1 = a) && decide (p.2 = b)) && chainOK trans (b :: rest)

/-- The conjunction of the CP model's constraints on an assignment
`xs = [X_0, …, X_h]` of dense indices: `X_0` equals the initial index,
`X_h` lies in `solved` (membership in an empty list is false, matching
the infeasible `X_h = -1` constraint emitted when no state is solved),
and consecutive pairs lie in the transition table. -/
def checkAssign (iidx : Nat) (solved : List Nat) (trans : List (Nat × Nat))
    (xs : List Nat) : Bool :=
  decide (xs.head? = some iidx) &&
  (match xs.getLast? with
   | some l => solved.contains l
   | none => false) &&
  chainOK trans xs

/-- All assignments of `k` variables each ranging over `0..n-1`, in
lexicographic order: the search space of the CP model. -/
def allSeqs (n : Nat) : Nat → List (List Nat)
  | 0 => [[]]
  | k + 1 => (List.range n).flatMap fun i => (allSeqs n k).map (i :: ·)

/-- Method `CPPathSolver.solve` at horizon `h`.  The external CP-SAT
engine is modelled by a complete exhaustive search over the variable
domains, which is the contract the design requires of the solver.
Outer `none` models the ValueError raised when the initial state is not
in the id mapping; `some none` is infeasibility; `some (some ids)` is a
found path converted back to DB state ids (`db_state_ids[i] = i + 1`). -/
def cp_solve (db : GraphDB) (init : BallSortState) (h : Nat) :
    Option (Option (List Nat)) :=
  match get_initial_state_id db init with
  | none => none
  | some iid =>
    match (allSeqs db.states.length (h + 1)).find?
        (checkAssign (iid - 1) (solved_indices db) (allowed_transition_pairs db)) with
    | none => some none
    | some xs => some (some (xs.map (· + 1)))

/-- The horizons `range(1, max_moves + 1)` tried by `__main__`. -/
def horizons (ceiling : Nat) : List Nat := (List.range ceiling).map (· + 1)

/-- The `__main__` iterative-deepening loop over a list of horizons:
on a feasible horizon whose path yields moves, stop; otherwise continue;
`some none` is the overall-failure report, `none` a crash. -/
def driver_loop (db : GraphDB) (init : BallSortState) :
    List Nat → Option (Option (List Nat × List Move))
  | [] => some none
  | h :: hs =>
    match cp_solve db init h with
    | none => none
    | some none => driver_loop db init hs
    | some (some path) =>
      match extract_moves db path with
      | none => driver_loop db init hs
      | some ms => some (some (path, ms))

/-- Overall outcome of a run of `__main__`. -/
inductive SolveResult where
  | solution : List Move → SolveResult
  | noSolution : SolveResult
deriving DecidableEq

/-- The full `__main__` pipeline: build the graph with depth ceiling
`maxMoves`, then run the iterative-deepening driver over horizons
`1..maxMoves`.  `none` models a crash or fuel exhaustion. -/
def solve_pipeline (C : Nat) (init : BallSortState) (maxMoves fuel : Nat) :
    Option SolveResult :=
  match build_graph C init maxMoves fuel with
  | none => none
  | some db =>
    match driver_loop db init (horizons maxMoves) with
    | none => none
    | some none => some SolveResult.noSolution
    | some (some (_, ms)) => some (SolveResult.solution ms)

/-- A list of moves is a legal path from `s` to `t`: each move is legal
in the state it is applied to, and applying them in order transforms
`s` into `t`. -/
def LegalPath (C : Nat) : BallSortState → List Move → BallSortState → Prop
  | s, [], t => t = s
  | s, m :: ms, t =>
    m ∈ get_legal_moves C s ∧ ∃ s', apply_move s m = some s' ∧ LegalPath C s' ms t

/-- Every consecutive pair of the id list is a recorded transition. -/
def PairsRecorded (db : GraphDB) : List Nat → Prop
  | [] => True
  | [_] => True
  | a :: b :: rest => (∃ m, (a, b, m) ∈ db.transitions) ∧ PairsRecorded db (b :: rest)

/-- The CP model at horizon `h` (initial dense index `iidx`) has a
satisfying assignment: a sequence of `h + 1` values within the variable
domains meeting all constraints. -/
def HorizonFeasible (db : GraphDB) (iidx h : Nat) : Prop :=
  ∃ xs : List Nat, xs.length = h + 1 ∧ (∀ x ∈ xs, x < db.states.length) ∧
    checkAssign iidx (solved_indices db) (allowed_transition_pairs db) xs = true

/-- Replay a list of moves from a state via `apply_move` (Scenario D's
step-by-step application). -/
def applyMoves (s : BallSortState) : List Move → Option BallSortState
  | [] => some s
  | m :: ms =>
    match apply_move s m with
    | none => none
    | some s' => applyMoves s' ms

/-- The multiset of all balls of a state. -/
def ballsOf (s : BallSortState) : Multiset Nat :=
  (s.map fun t => (t : Multiset Nat)).sum

/-- Any finite sequence of later `insert_state` calls, folded over the
store. -/
def insert_states (db : GraphDB) (l : List BallSortState) : GraphDB :=
  l.foldl (fun d t => (insert_state d t).1) db

/-- Every stored state is reachable from `init` by at most `d` legal moves. -/
def StatesReach (C : Nat) (init : BallSortState) (d : Nat) (db : GraphDB) : Prop :=
  ∀ s ∈ db.states, ∃ ws, ws.length ≤ d ∧ LegalPath C init ws s

/-- Every queue entry is within depth `d`, holds a valid id, and its
state is reachable within its recorded depth. -/
def QueueOK (C : Nat) (init : BallSortState) (d : Nat) (db : GraphDB)
    (queue : List (Nat × Nat)) : Prop :=
  ∀ q ∈ queue, q.2 ≤ d ∧ ∃ s, get_state_by_id db q.1 = some s ∧
    ∃ ws, ws.length ≤ q.2 ∧ LegalPath C init ws s

/-- Every recorded transition joins stored states relatable by its move. -/
def TransOK (db : GraphDB) : Prop :=
  ∀ tr ∈ db.transitions, ∃ sf st, get_state_by_id db tr.1 = some sf ∧
    get_state_by_id db tr.2.1 = some st ∧ apply_move sf tr.2.2 = some st

/-- A fixed concrete graph: the result of building the Scenario A
instance (`[[1, 1], []]`, capacity 2) with depth ceiling 1. -/
def dbA : GraphDB :=
  ⟨[[[1, 1], []], [[1], [1]]], [(1, 2, Move.mk 0 1 1)]⟩

/-! Helper lemmas about the rules engine. -/

lemma is_solved_iff (s : BallSortState) :
    is_solved s = true ↔ ∀ tube ∈ s, ∀ x ∈ tube, ∀ y ∈ tube, x = y := by
  unfold is_solved
  rw [List.all_eq_true]
  constructor
  · intro h tube ht x hx y hy
    have hall := h tube ht
    cases tube with
    | nil => cases hx
    | cons b rest =>
      rw [List.all_eq_true] at hall
      have hx' := hall x hx
      have hy' := hall y hy
      simp at hx' hy'
      omega
  · intro h tube ht
    cases tube with
    | nil => rfl
    | cons b rest =>
      rw [List.all_eq_true]
      intro ball hb
      have := h _ ht ball hb b (List.mem_cons_self b rest)
      simp [this]

lemma getElem?_set_none_iff (s : BallSortState) (i j : Nat) (x : List Nat) :
    (s.set i x)[j]? = none ↔ s[j]? = none := by
  rw [List.getElem?_eq_none_iff, List.getElem?_eq_none_iff, List.length_set]

lemma apply_move_eq_none_iff (s : BallSortState) (m : Move) :
    apply_move s m = none ↔
      s[m.src]? = none ∨ s[m.src]? = some [] ∨ s[m.dst]? = none := by
  unfold apply_move
  cases hsrc : s[m.src]? with
  | none => simp
  | some ts =>
    cases hlast : ts.getLast? with
    | none =>
      have hts : ts = [] := by simpa using hlast
      subst hts
      simp
    | some b =>
      have hts : ts ≠ [] := by rintro rfl; simp at hlast
      cases hdst : (s.set m.src ts.dropLast)[m.dst]? with
      | none =>
        have hdst2 : s[m.dst]? = none :=
          (getElem?_set_none_iff s m.src m.dst ts.dropLast).mp hdst
        simp [hdst2, hlast, hdst]
      | some td =>
        have hdst2 : ¬ s[m.dst]? = none := by
          rw [← getElem?_set_none_iff s m.src m.dst ts.dropLast]
          simp [hdst]
        simp [hts, hdst2, hlast, hdst]

lemma mem_get_legal_moves (C : Nat) (s : BallSortState) (m : Move) :
    m ∈ get_legal_moves C s ↔
      ∃ ts td, s[m.src]? = some ts ∧ s[m.dst]? = some td ∧
        m.src ≠ m.dst ∧ ts ≠ [] ∧ td.length < C ∧
        (td = [] ∨ td.getLast? = ts.getLast?) ∧ some m.color = ts.getLast? := by
  obtain ⟨msrc, mdst, mcol⟩ := m
  simp only [get_legal_moves, List.mem_flatMap, List.mem_range]
  constructor
  · rintro ⟨src, hsrc, hm⟩
    cases hl : (s.getD src []).getLast? with
    | none => rw [hl] at hm; cases hm
    | some ball =>
      rw [hl] at hm
      simp only [List.mem_filterMap, List.mem_range] at hm
      obtain ⟨dst, hdst, heq⟩ := hm
      by_cases h1 : src = dst
      · rw [if_pos h1] at heq; cases heq
      · rw [if_neg h1] at heq
        by_cases h2 : C ≤ (s.getD dst []).length
        · rw [if_pos h2] at heq; cases heq
        · rw [if_neg h2] at heq
          by_cases h3 : s.getD dst [] ≠ [] ∧ (s.getD dst []).getLast? ≠ some ball
          · rw [if_pos h3] at heq; cases heq
          · rw [if_neg h3] at heq
            rw [Option.some_inj, Move.mk.injEq] at heq
            obtain ⟨h4, h5, h6⟩ := heq
            subst h4; subst h5; subst h6
            push_neg at h3
            refine ⟨s.getD src [], s.getD dst [], ?_, ?_, h1, ?_, by omega, ?_, hl.symm⟩
            · rw [List.getD_eq_getElem s [] hsrc]
              exact List.getElem?_eq_getElem hsrc
            · rw [List.getD_eq_getElem s [] hdst]
              exact List.getElem?_eq_getElem hdst
            · intro h; rw [h] at hl; cases hl
            · by_cases h4 : s.getD dst [] = []
              · exact Or.inl h4
              · exact Or.inr ((h3 h4).trans hl.symm)
  · rintro ⟨ts, td, hts, htd, hne, htsne, htdlen, htop, hcol⟩
    have hsrc : msrc < s.length := (List.getElem?_eq_some.mp hts).1
    have hdst : mdst < s.length := (List.getElem?_eq_some.mp htd).1
    have hts' : s.getD msrc [] = ts := by
      rw [List.getD_eq_getElem s [] hsrc]
      exact Option.some_injective _ ((List.getElem?_eq_getElem hsrc).symm.trans hts)
    have htd' : s.getD mdst [] = td := by
      rw [List.getD_eq_getElem s [] hdst]
      exact Option.some_injective _ ((List.getElem?_eq_getElem hdst).symm.trans htd)
    refine ⟨msrc, hsrc, ?_⟩
    rw [hts', ← hcol]
    simp only [List.mem_filterMap, List.mem_range]
    refine ⟨mdst, hdst, ?_⟩
    rw [if_neg hne, htd']
    rw [if_neg (by omega : ¬ C ≤ td.length)]
    have h3 : ¬ (td ≠ [] ∧ td.getLast? ≠ some mcol) := by
      rcases htop with h | h
      · simp [h]
      · rintro ⟨_, hcontra⟩
        exact hcontra (h.trans hcol.symm)
    rw [if_neg h3]

lemma ballsOf_cons (t : List Nat) (rest : BallSortState) :
    ballsOf (t :: rest) = ↑t + ballsOf rest := by
  simp [ballsOf]

lemma ballsOf_set (s : BallSortState) (i : Nat) (x : List Nat) (h : i < s.length) :
    ballsOf (s.set i x) + (↑(s.get ⟨i, h⟩) : Multiset Nat) = ballsOf s + ↑x := by
  induction s generalizing i with
  | nil => cases h
  | cons t rest ih =>
    cases i with
    | zero =>
      simp only [List.set, ballsOf_cons, List.get]
      abel
    | succ n =>
      have h' : n < rest.length := by simpa using h
      have hrec := ih n h'
      simp only [List.set, ballsOf_cons, List.get]
      rw [add_assoc, hrec, ← add_assoc]

lemma apply_move_spec (s : BallSortState) (m : Move) (ts : List Nat)
    (hne : m.src ≠ m.dst) (hdlt : m.dst < s.length)
    (hts : s[m.src]? = some ts) (htsne : ts ≠ []) :
    ∃ r b, apply_move s m = some r ∧ ts.getLast? = some b ∧
      r.length = s.length ∧
      (∀ i, i ≠ m.src → i ≠ m.dst → r[i]? = s[i]?) ∧
      r[m.src]? = some ts.dropLast ∧
      r[m.dst]? = (s[m.dst]?).map (fun td => td ++ [b]) ∧
      ballsOf r = ballsOf s := by
  have hsrc : m.src < s.length := (List.getElem?_eq_some.mp hts).1
  obtain ⟨b, hb⟩ : ∃ b, ts.getLast? = some b := by
    cases hl : ts.getLast? with
    | none => exact absurd (by simpa using hl) htsne
    | some b => exact ⟨b, rfl⟩
  have htd : (s.set m.src ts.dropLast)[m.dst]? = s[m.dst]? := List.getElem?_set_ne hne
  have htdv : s[m.dst]? = some s[m.dst] := List.getElem?_eq_getElem hdlt
  refine ⟨(s.set m.src ts.dropLast).set m.dst (s[m.dst] ++ [b]), b, ?_, hb, ?_, ?_, ?_, ?_, ?_⟩
  · simp only [apply_move, hts, hb, htd.trans htdv]
  · simp
  · intro i h1 h2
    rw [List.getElem?_set_ne (Ne.symm h2), List.getElem?_set_ne (Ne.symm h1)]
  · rw [List.getElem?_set_ne (Ne.symm hne), List.getElem?_set_self hsrc]
  · rw [List.getElem?_set_self (by simpa using hdlt), htdv]
    rfl
  · have hlastb : ts.getLast htsne = b := by
      rwa [List.getLast?_eq_getLast _ htsne, Option.some_inj] at hb
    have hts' : ts.dropLast ++ [b] = ts := by
      have h0 := List.dropLast_append_getLast htsne
      rwa [hlastb] at h0
    have htseq : s[m.src] = ts := by
      have h0 := List.getElem?_eq_getElem hsrc
      rw [hts] at h0
      exact (Option.some_inj.mp h0).symm
    have e1 := ballsOf_set s m.src ts.dropLast hsrc
    have e2 := ballsOf_set (s.set m.src ts.dropLast) m.dst (s[m.dst] ++ [b])
      (by simpa using hdlt)
    have g1 : s.get ⟨m.src, hsrc⟩ = ts := by
      rw [List.get_eq_getElem, htseq]
    have g2 : (s.set m.src ts.dropLast).get ⟨m.dst, by simpa using hdlt⟩ = s[m.dst] := by
      rw [List.get_eq_getElem, List.getElem_set_ne hne]
    rw [g1] at e1
    rw [g2] at e2
    have hcoe : (↑(s[m.dst] ++ [b]) : Multiset Nat)
        = (↑(s[m.dst]) : Multiset Nat) + (↑([b] : List Nat) : Multiset Nat) :=
      (Multiset.coe_add _ _).symm
    have hcoe2 : (↑ts : Multiset Nat)
        = (↑ts.dropLast : Multiset Nat) + (↑([b] : List Nat) : Multiset Nat) := by
      conv_lhs => rw [← hts']
      exact (Multiset.coe_add _ _).symm
    have k1 : ballsOf ((s.set m.src ts.dropLast).set m.dst (s[m.dst] ++ [b]))
        = ballsOf (s.set m.src ts.dropLast) + (↑([b] : List Nat) : Multiset Nat) := by
      apply add_right_cancel (b := (↑(s[m.dst]) : Multiset Nat))
      rw [e2, hcoe]
      abel
    have k2 : ballsOf (s.set m.src ts.dropLast) + (↑([b] : List Nat) : Multiset Nat)
        = ballsOf s := by
      apply add_right_cancel (b := (↑ts.dropLast : Multiset Nat))
      rw [← e1, hcoe2]
      abel
    rw [k1, k2]

lemma legal_apply_safe (C : Nat) (s : BallSortState) (m : Move)
    (hcap : ∀ t ∈ s, t.length ≤ C) (hm : m ∈ get_legal_moves C s) :
    ∃ r, apply_move s m = some r ∧ ∀ t ∈ r, t.length ≤ C := by
  obtain ⟨ts, td, hts, htd, hne, htsne, htdlen, htop, hcol⟩ :=
    (mem_get_legal_moves C s m).mp hm
  have hdlt : m.dst < s.length := (List.getElem?_eq_some.mp htd).1
  obtain ⟨r, b, happ, hb, hlen, hframe, hsrcv, hdstv, hballs⟩ :=
    apply_move_spec s m ts hne hdlt hts htsne
  have htsmem : ts ∈ s := by
    obtain ⟨h1, h2⟩ := List.getElem?_eq_some.mp hts
    exact List.mem_iff_getElem.mpr ⟨m.src, h1, h2⟩
  refine ⟨r, happ, ?_⟩
  intro t ht
  obtain ⟨i, hi, hteq⟩ := List.getElem_of_mem ht
  subst hteq
  have hiv : r[i]? = some r[i] := List.getElem?_eq_getElem hi
  by_cases h1 : i = m.src
  · have hsrcv2 : r[i]? = some ts.dropLast := by rw [h1]; exact hsrcv
    rw [hiv] at hsrcv2
    have heq : r[i] = ts.dropLast := Option.some_inj.mp hsrcv2
    have hcapts := hcap ts htsmem
    rw [heq, List.length_dropLast]
    omega
  · by_cases h2 : i = m.dst
    · rw [htd] at hdstv
      have hdstv2 : r[i]? = some (td ++ [b]) := by rw [h2]; exact hdstv
      rw [hiv] at hdstv2
      have heq : r[i] = td ++ [b] := Option.some_inj.mp hdstv2
      rw [heq, List.length_append]
      simp
      omega
    · have heq : s[i]? = some r[i] := (hframe i h1 h2).symm.trans hiv
      obtain ⟨h3, h4⟩ := List.getElem?_eq_some.mp heq
      exact hcap _ (List.mem_iff_getElem.mpr ⟨i, h3, h4⟩)

/-! Helper lemmas about the state store. -/

lemma insert_state_states (db : GraphDB) (s : BallSortState) :
    (insert_state db s).1.states = db.states ∨
    (insert_state db s).1.states = db.states ++ [s] := by
  unfold insert_state
  cases h : db.states.findIdx? (fun t => decide (t = s)) with
  | none => exact Or.inr rfl
  | some i => exact Or.inl rfl

lemma get_state_by_id_insert (db : GraphDB) (s : BallSortState) (i : Nat)
    (t : BallSortState) (h : get_state_by_id db i = some t) :
    get_state_by_id (insert_state db s).1 i = some t := by
  unfold get_state_by_id at h ⊢
  by_cases hi : i = 0
  · simp [hi] at h
  · rw [if_neg hi] at h ⊢
    have hlt : i - 1 < db.states.length := (List.getElem?_eq_some.mp h).1
    rcases insert_state_states db s with he | he
    · rw [he]; exact h
    · rw [he, List.getElem?_append_left hlt]; exact h

lemma insert_state_lookup (db : GraphDB) (s : BallSortState) :
    get_state_by_id (insert_state db s).1 (insert_state db s).2 = some s := by
  unfold insert_state get_state_by_id
  cases h : db.states.findIdx? (fun t => decide (t = s)) with
  | none =>
    simp only
    rw [if_neg (by omega)]
    simp only [Nat.add_sub_cancel]
    exact List.getElem?_concat_length db.states s
  | some i =>
    simp only
    rw [if_neg (by omega)]
    obtain ⟨hlt, hp, hmin⟩ := List.findIdx?_eq_some_iff_getElem.mp h
    simp only [Nat.add_sub_cancel]
    rw [List.getElem?_eq_getElem hlt]
    simp at hp
    rw [hp]

lemma insert_state_findIdx (db : GraphDB) (s : BallSortState) :
    (insert_state db s).1.states.findIdx? (fun t => decide (t = s))
      = some ((insert_state db s).2 - 1) := by
  unfold insert_state
  cases h : db.states.findIdx? (fun t => decide (t = s)) with
  | some i => simpa using h
  | none =>
    simp only
    rw [List.findIdx?_append, h]
    simp

lemma insert_state_of_findIdx (X : GraphDB) (s : BallSortState) (i : Nat)
    (h : X.states.findIdx? (fun t => decide (t = s)) = some i) :
    insert_state X s = (X, i + 1) := by
  unfold insert_state
  rw [h]

lemma insert_state_pos (db : GraphDB) (s : BallSortState) :
    1 ≤ (insert_state db s).2 := by
  unfold insert_state
  cases h : db.states.findIdx? (fun t => decide (t = s)) <;> simp

lemma insert_state_idem (db : GraphDB) (s : BallSortState) :
    (insert_state (insert_state db s).1 s).2 = (insert_state db s).2 ∧
    (insert_state (insert_state db s).1 s).1 = (insert_state db s).1 := by
  have hf := insert_state_findIdx db s
  have h1 := insert_state_pos db s
  have h2 := insert_state_of_findIdx (insert_state db s).1 s _ hf
  rw [h2]
  exact ⟨by simp; omega, rfl⟩

lemma get_state_by_id_insert_states (db : GraphDB) (l : List BallSortState)
    (i : Nat) (t : BallSortState) (h : get_state_by_id db i = some t) :
    get_state_by_id (insert_states db l) i = some t := by
  induction l generalizing db with
  | nil => exact h
  | cons x xs ih => exact ih _ (get_state_by_id_insert db x i t h)

/-! Helper lemmas about the graph builder. -/

lemma LegalPath_snoc (C : Nat) (init s t : BallSortState) (ws : List Move) (m : Move)
    (hp : LegalPath C init ws s) (hm : m ∈ get_legal_moves C s)
    (ha : apply_move s m = some t) : LegalPath C init (ws ++ [m]) t := by
  induction ws generalizing init with
  | nil =>
    have hs : s = init := hp
    subst hs
    exact ⟨hm, t, ha, rfl⟩
  | cons w ws ih =>
    obtain ⟨hw, u, ha', hp'⟩ := hp
    exact ⟨hw, u, ha', ih u hp'⟩

lemma insert_state_transitions (db : GraphDB) (s : BallSortState) :
    (insert_state db s).1.transitions = db.transitions := by
  unfold insert_state
  cases h : db.states.findIdx? (fun t => decide (t = s)) <;> rfl

lemma get_state_by_id_insert_transition (db : GraphDB) (f t : Nat) (m : Move)
    (i : Nat) : get_state_by_id (insert_transition db f t m) i
      = get_state_by_id db i := rfl

lemma expand_inv (C : Nat) (init : BallSortState) (d : Nat) (st : BallSortState)
    (sid depth : Nat) :
    ∀ (ms : List Move) (db : GraphDB) (q : List (Nat × Nat)) (v : List Nat)
      (db2 : GraphDB) (q2 : List (Nat × Nat)) (v2 : List Nat),
    (∀ m ∈ ms, m ∈ get_legal_moves C st) →
    get_state_by_id db sid = some st →
    (∃ ws, ws.length ≤ depth ∧ LegalPath C init ws st) →
    depth < d →
    StatesReach C init d db → QueueOK C init d db q → TransOK db →
    expand st sid depth ms db q v = some (db2, q2, v2) →
    StatesReach C init d db2 ∧ QueueOK C init d db2 q2 ∧ TransOK db2 := by
  intro ms
  induction ms with
  | nil =>
    intro db q v db2 q2 v2 _ _ _ _ hS hQ hT he
    simp only [expand, Option.some_inj, Prod.mk.injEq] at he
    obtain ⟨h1, h2, h3⟩ := he
    subst h1; subst h2
    exact ⟨hS, hQ, hT⟩
  | cons m ms ih =>
    intro db q v db2 q2 v2 hms hstid hreach hd hS hQ hT he
    simp only [expand] at he
    cases happ : apply_move st m with
    | none => rw [happ] at he; cases he
    | some ns =>
      rw [happ] at he
      dsimp only at he
      have hm0 : m ∈ get_legal_moves C st := hms m (List.mem_cons_self m ms)
      obtain ⟨ws, hws, hp⟩ := hreach
      have hreach_ns : ∃ ws2, ws2.length ≤ depth + 1 ∧ LegalPath C init ws2 ns :=
        ⟨ws ++ [m], by simp; omega, LegalPath_snoc C init st ns ws m hp hm0 happ⟩
      have hS' : StatesReach C init d
          (insert_transition (insert_state db ns).1 sid (insert_state db ns).2 m) := by
        intro s hs
        have hs2 : s ∈ (insert_state db ns).1.states := hs
        rcases insert_state_states db ns with heq | heq
        · exact hS s (by rwa [heq] at hs2)
        · rw [heq] at hs2
          rcases List.mem_append.mp hs2 with h | h
          · exact hS s h
          · obtain ⟨ws2, hws2, hp2⟩ := hreach_ns
            have : s = ns := by simpa using h
            subst this
            exact ⟨ws2, by omega, hp2⟩
      have hstid' : get_state_by_id
          (insert_transition (insert_state db ns).1 sid (insert_state db ns).2 m) sid
          = some st := by
        rw [get_state_by_id_insert_transition]
        exact get_state_by_id_insert db ns sid st hstid
      have hlook_ns : get_state_by_id
          (insert_transition (insert_state db ns).1 sid (insert_state db ns).2 m)
          (insert_state db ns).2 = some ns := by
        rw [get_state_by_id_insert_transition]
        exact insert_state_lookup db ns
      have hQ' : QueueOK C init d
          (insert_transition (insert_state db ns).1 sid (insert_state db ns).2 m) q := by
        intro x hx
        obtain ⟨hx1, s, hxs, ws2, hws2, hp2⟩ := hQ x hx
        refine ⟨hx1, s, ?_, ws2, hws2, hp2⟩
        rw [get_state_by_id_insert_transition]
        exact get_state_by_id_insert db ns x.1 s hxs
      have hT' : TransOK
          (insert_transition (insert_state db ns).1 sid (insert_state db ns).2 m) := by
        intro tr htr
        have : tr ∈ (insert_state db ns).1.transitions ++
            [(sid, (insert_state db ns).2, m)] := htr
        rw [insert_state_transitions] at this
        rcases List.mem_append.mp this with h | h
        · obtain ⟨sf, st2, hsf, hst2, ha2⟩ := hT tr h
          refine ⟨sf, st2, ?_, ?_, ha2⟩
          · rw [get_state_by_id_insert_transition]
            exact get_state_by_id_insert db ns tr.1 sf hsf
          · rw [get_state_by_id_insert_transition]
            exact get_state_by_id_insert db ns tr.2.1 st2 hst2
        · have htr2 : tr = (sid, (insert_state db ns).2, m) := by simpa using h
          subst htr2
          exact ⟨st, ns, hstid', hlook_ns, happ⟩
      have hms' : ∀ m2 ∈ ms, m2 ∈ get_legal_moves C st :=
        fun m2 hm2 => hms m2 (List.mem_cons_of_mem m hm2)
      by_cases hv : (insert_state db ns).2 ∈ v
      · rw [if_pos hv] at he
        exact ih _ _ _ db2 q2 v2 hms' hstid' ⟨ws, hws, hp⟩ hd hS' hQ' hT' he
      · rw [if_neg hv] at he
        have hQ'' : QueueOK C init d
            (insert_transition (insert_state db ns).1 sid (insert_state db ns).2 m)
            (q ++ [((insert_state db ns).2, depth + 1)]) := by
          intro x hx
          rcases List.mem_append.mp hx with h | h
          · exact hQ' x h
          · have hx2 : x = ((insert_state db ns).2, depth + 1) := by simpa using h
            subst hx2
            obtain ⟨ws2, hws2, hp2⟩ := hreach_ns
            exact ⟨by omega, ns, hlook_ns, ws2, hws2, hp2⟩
        exact ih _ _ _ db2 q2 v2 hms' hstid' ⟨ws, hws, hp⟩ hd hS' hQ'' hT' he

lemma build_loop_inv (C d : Nat) (init : BallSortState) :
    ∀ (fuel : Nat) (db : GraphDB) (q : List (Nat × Nat)) (v : List Nat)
      (db' : GraphDB),
    StatesReach C init d db → QueueOK C init d db q → TransOK db →
    build_loop C d fuel db q v = some db' →
    StatesReach C init d db' ∧ TransOK db' := by
  intro fuel
  induction fuel with
  | zero =>
    intro db q v db' _ _ _ h
    exact Option.noConfusion h
  | succ fuel ih =>
    intro db q v db' hS hQ hT h
    cases q with
    | nil =>
      have hdb : db = db' := by
        simpa [build_loop] using h
      subst hdb
      exact ⟨hS, hT⟩
    | cons hd tl =>
      obtain ⟨sid, depth⟩ := hd
      have hQtl : QueueOK C init d db tl :=
        fun x hx => hQ x (List.mem_cons_of_mem _ hx)
      simp only [build_loop] at h
      by_cases hdep : d ≤ depth
      · rw [if_pos hdep] at h
        exact ih db tl v db' hS hQtl hT h
      · rw [if_neg hdep] at h
        cases hst : get_state_by_id db sid with
        | none =>
          rw [hst] at h
          exact ih db tl v db' hS hQtl hT h
        | some st =>
          rw [hst] at h
          dsimp only at h
          cases he : expand st sid depth (get_legal_moves C st) db tl v with
          | none =>
            rw [he] at h
            exact Option.noConfusion h
          | some res =>
            obtain ⟨db2, q2, v2⟩ := res
            rw [he] at h
            obtain ⟨hdd, st2, hst2, ws, hws, hp⟩ := hQ (sid, depth)
              (List.mem_cons_self _ _)
            have hst2' : st2 = st := Option.some_inj.mp (hst2.symm.trans hst)
            subst hst2'
            have hinv := expand_inv C init d st2 sid depth
              (get_legal_moves C st2) db tl v db2 q2 v2
              (fun m2 hm2 => hm2) hst ⟨ws, hws, hp⟩ (by omega) hS hQtl hT he
            exact ih db2 q2 v2 db' hinv.1 hinv.2.1 hinv.2.2 h

lemma build_graph_inv (C : Nat) (init : BallSortState) (d fuel : Nat)
    (db : GraphDB) (h : build_graph C init d fuel = some db) :
    StatesReach C init d db ∧ TransOK db := by
  unfold build_graph at h
  refine build_loop_inv C d init fuel _ _ _ db ?_ ?_ ?_ h
  · intro s hs
    have hs2 : s = init := by
      simpa [insert_state, emptyDB] using hs
    subst hs2
    exact ⟨[], by simp, rfl⟩
  · intro x hx
    have hx2 : x = (1, 0) := by
      simpa [insert_state, emptyDB] using hx
    subst hx2
    exact ⟨by omega, init, rfl, [], by simp, rfl⟩
  · intro tr htr
    have : tr ∈ ([] : List (Nat × Nat × Move)) := htr
    cases this

/-! Helper lemmas for move reconstruction and replay. -/

lemma get_transition_move_of_mem (db : GraphDB) (a b : Nat)
    (h : ∃ m, (a, b, m) ∈ db.transitions) :
    ∃ m0, get_transition_move db a b = some m0 ∧ (a, b, m0) ∈ db.transitions := by
  obtain ⟨m, hm⟩ := h
  unfold get_transition_move
  cases hf : db.transitions.find? (fun tr => decide (tr.1 = a) && decide (tr.2.1 = b)) with
  | none =>
    exfalso
    have := List.find?_eq_none.mp hf _ hm
    simp at this
  | some tr =>
    have hmem := List.mem_of_find?_eq_some hf
    have hpred := List.find?_some hf
    simp only [Bool.and_eq_true, decide_eq_true_eq] at hpred
    obtain ⟨h1, h2⟩ := hpred
    refine ⟨tr.2.2, rfl, ?_⟩
    obtain ⟨x, y, z⟩ := tr
    simp only at h1 h2
    subst h1; subst h2
    exact hmem

lemma extract_moves_replay (db : GraphDB) (hT : TransOK db) :
    ∀ (path : List Nat) (i0 ik : Nat) (s0 sk : BallSortState),
    path.head? = some i0 → path.getLast? = some ik →
    get_state_by_id db i0 = some s0 → get_state_by_id db ik = some sk →
    PairsRecorded db path →
    ∃ ms, extract_moves db path = some ms ∧ applyMoves s0 ms = some sk := by
  intro path
  induction path with
  | nil =>
    intro i0 ik s0 sk h0 hk hs0 hsk hrec
    cases h0
  | cons a rest ih =>
    cases rest with
    | nil =>
      intro i0 ik s0 sk h0 hk hs0 hsk hrec
      have h0' : a = i0 := by simpa using h0
      have hk' : a = ik := by simpa using hk
      subst h0'; subst hk'
      have hssk : s0 = sk := Option.some_inj.mp (hs0.symm.trans hsk)
      subst hssk
      exact ⟨[], rfl, rfl⟩
    | cons b rest2 =>
      intro i0 ik s0 sk h0 hk hs0 hsk hrec
      obtain ⟨hab, hrec'⟩ := hrec
      obtain ⟨m0, hget, hmem⟩ := get_transition_move_of_mem db a b hab
      obtain ⟨sf, st2, hsf, hst2, happly⟩ := hT _ hmem
      have h0' : a = i0 := by simpa using h0
      subst h0'
      have hs0f : s0 = sf := Option.some_inj.mp (hs0.symm.trans hsf)
      subst hs0f
      have hk' : (b :: rest2).getLast? = some ik := by
        rwa [List.getLast?_cons_cons] at hk
      obtain ⟨ms, hex, hap⟩ := ih b ik st2 sk rfl hk' hst2 hsk hrec'
      refine ⟨m0 :: ms, ?_, ?_⟩
      · simp only [extract_moves, hget, hex]
      · simp only [applyMoves, happly, hap]

/-! Helper lemmas for the path solver and the iterative-deepening driver. -/

lemma mem_allSeqs (n : Nat) : ∀ (k : Nat) (xs : List Nat),
    xs ∈ allSeqs n k ↔ xs.length = k ∧ ∀ x ∈ xs, x < n := by
  intro k
  induction k with
  | zero =>
    intro xs
    simp only [allSeqs, List.mem_singleton]
    constructor
    · rintro rfl; simp
    · rintro ⟨h1, _⟩
      exact List.length_eq_zero.mp h1
  | succ k ih =>
    intro xs
    simp only [allSeqs, List.mem_flatMap, List.mem_map, List.mem_range]
    constructor
    · rintro ⟨i, hi, ys, hys, rfl⟩
      obtain ⟨h1, h2⟩ := (ih ys).mp hys
      refine ⟨by simp [h1], ?_⟩
      intro x hx
      rcases List.mem_cons.mp hx with h | h
      · subst h; exact hi
      · exact h2 x h
    · rintro ⟨h1, h2⟩
      cases xs with
      | nil => cases h1
      | cons x ys =>
        refine ⟨x, h2 x (List.mem_cons_self x ys), ys, ?_, rfl⟩
        exact (ih ys).mpr ⟨by simpa using h1, fun y hy => h2 y (List.mem_cons_of_mem x hy)⟩

lemma cp_solve_some_spec (db : GraphDB) (init : BallSortState) (h : Nat)
    (path : List Nat) (hcp : cp_solve db init h = some (some path)) :
    ∃ iid xs, get_initial_state_id db init = some iid ∧
      xs.length = h + 1 ∧ (∀ x ∈ xs, x < db.states.length) ∧
      checkAssign (iid - 1) (solved_indices db) (allowed_transition_pairs db) xs
        = true ∧
      path = xs.map (· + 1) := by
  unfold cp_solve at hcp
  cases hiid : get_initial_state_id db init with
  | none => rw [hiid] at hcp; cases hcp
  | some iid =>
    rw [hiid] at hcp
    dsimp only at hcp
    cases hf : (allSeqs db.states.length (h + 1)).find?
        (checkAssign (iid - 1) (solved_indices db) (allowed_transition_pairs db)) with
    | none => rw [hf] at hcp; cases hcp
    | some xs =>
      rw [hf] at hcp
      have hmem := List.mem_of_find?_eq_some hf
      have hpred := List.find?_some hf
      obtain ⟨h1, h2⟩ := (mem_allSeqs db.states.length (h + 1) xs).mp hmem
      have hpath : path = xs.map (· + 1) := by
        have := Option.some_inj.mp hcp
        exact (Option.some_inj.mp this).symm
      exact ⟨iid, xs, rfl, h1, h2, hpred, hpath⟩

lemma cp_solve_none_not_feasible (db : GraphDB) (init : BallSortState)
    (h iid : Nat) (hcp : cp_solve db init h = some none)
    (hiid : get_initial_state_id db init = some iid) :
    ¬ HorizonFeasible db (iid - 1) h := by
  unfold cp_solve at hcp
  rw [hiid] at hcp
  dsimp only at hcp
  cases hf : (allSeqs db.states.length (h + 1)).find?
      (checkAssign (iid - 1) (solved_indices db) (allowed_transition_pairs db)) with
  | some xs => rw [hf] at hcp; cases hcp
  | none =>
    rintro ⟨xs, h1, h2, hchk⟩
    have hmem := (mem_allSeqs db.states.length (h + 1) xs).mpr ⟨h1, h2⟩
    have := List.find?_eq_none.mp hf xs hmem
    rw [hchk] at this
    cases this rfl

lemma chainOK_extract (db : GraphDB) : ∀ (xs : List Nat),
    chainOK (allowed_transition_pairs db) xs = true →
    ∃ ms, extract_moves db (xs.map (· + 1)) = some ms ∧
      ms.length = xs.length - 1 := by
  intro xs
  induction xs with
  | nil => intro _; exact ⟨[], rfl, rfl⟩
  | cons a rest ih =>
    cases rest with
    | nil => intro _; exact ⟨[], rfl, rfl⟩
    | cons b rest2 =>
      intro hc
      simp only [chainOK, Bool.and_eq_true] at hc
      obtain ⟨hpair, hc2⟩ := hc
      obtain ⟨p, hpmem, hp⟩ := List.any_eq_true.mp hpair
      simp only [Bool.and_eq_true, decide_eq_true_eq] at hp
      obtain ⟨hp1, hp2⟩ := hp
      unfold allowed_transition_pairs at hpmem
      obtain ⟨tr, htr, htreq⟩ := List.mem_filterMap.mp hpmem
      by_cases hcnd : 1 ≤ tr.1 ∧ tr.1 ≤ db.states.length ∧
          1 ≤ tr.2.1 ∧ tr.2.1 ≤ db.states.length
      · rw [if_pos hcnd] at htreq
        have hpeq : (tr.1 - 1, tr.2.1 - 1) = p := Option.some_inj.mp htreq
        have htr1 : tr.1 = a + 1 := by
          have : tr.1 - 1 = a := by rw [← hp1, ← hpeq]
          omega
        have htr2 : tr.2.1 = b + 1 := by
          have : tr.2.1 - 1 = b := by rw [← hp2, ← hpeq]
          omega
        have hmem2 : (a + 1, b + 1, tr.2.2) ∈ db.transitions := by
          obtain ⟨x, y, z⟩ := tr
          simp only at htr1 htr2
          subst htr1; subst htr2
          exact htr
        obtain ⟨m0, hget, _⟩ :=
          get_transition_move_of_mem db (a + 1) (b + 1) ⟨tr.2.2, hmem2⟩
        obtain ⟨ms, hex, hlen⟩ := ih hc2
        refine ⟨m0 :: ms, ?_, ?_⟩
        · simp only [List.map_cons] at hex ⊢
          simp only [extract_moves, hget, hex]
        · simp at hlen ⊢
          omega
      · rw [if_neg hcnd] at htreq
        cases htreq

lemma cp_extract_ok (db : GraphDB) (init : BallSortState) (h : Nat)
    (path : List Nat) (hcp : cp_solve db init h = some (some path)) :
    ∃ ms, extract_moves db path = some ms ∧ ms.length = h := by
  obtain ⟨iid, xs, hiid, hlen, hbound, hchk, hpath⟩ :=
    cp_solve_some_spec db init h path hcp
  simp only [checkAssign, Bool.and_eq_true] at hchk
  obtain ⟨ms, hex, hmslen⟩ := chainOK_extract db xs hchk.2
  subst hpath
  exact ⟨ms, hex, by omega⟩

lemma driver_loop_fail (db : GraphDB) (init : BallSortState) :
    ∀ (hs : List Nat), driver_loop db init hs = some none →
    ∀ h ∈ hs, cp_solve db init h = some none := by
  intro hs
  induction hs with
  | nil => intro _ h hh; cases hh
  | cons a rest ih =>
    intro hd h hh
    simp only [driver_loop] at hd
    cases hcp : cp_solve db init a with
    | none => rw [hcp] at hd; cases hd
    | some o =>
      cases o with
      | none =>
        rw [hcp] at hd
        dsimp only at hd
        rcases List.mem_cons.mp hh with rfl | hh2
        · exact hcp
        · exact ih hd h hh2
      | some p =>
        exfalso
        obtain ⟨ms0, hex, _⟩ := cp_extract_ok db init a p hcp
        rw [hcp] at hd
        dsimp only at hd
        rw [hex] at hd
        cases hd

lemma driver_loop_first (db : GraphDB) (init : BallSortState) :
    ∀ (k a : Nat) (path : List Nat) (ms : List Move),
    driver_loop db init ((List.range k).map (· + a)) = some (some (path, ms)) →
    ∃ h, a ≤ h ∧ h < a + k ∧ cp_solve db init h = some (some path) ∧
      extract_moves db path = some ms ∧
      ∀ h2, a ≤ h2 → h2 < h → cp_solve db init h2 = some none := by
  intro k
  induction k with
  | zero =>
    intro a path ms hd
    simp only [List.range_zero, List.map_nil, driver_loop] at hd
    cases hd
  | succ k ih =>
    intro a path ms hd
    have hr : (List.range (k + 1)).map (· + a)
        = a :: (List.range k).map (· + (a + 1)) := by
      rw [List.range_succ_eq_map, List.map_cons, List.map_map]
      simp only [Nat.zero_add]
      congr 1
      apply List.map_congr_left
      intro x hx
      simp only [Function.comp]
      omega
    rw [hr] at hd
    simp only [driver_loop] at hd
    cases hcp : cp_solve db init a with
    | none => rw [hcp] at hd; cases hd
    | some o =>
      cases o with
      | none =>
        rw [hcp] at hd
        dsimp only at hd
        obtain ⟨h, hh1, hh2, hh3, hh4, hh5⟩ := ih (a + 1) path ms hd
        refine ⟨h, by omega, by omega, hh3, hh4, ?_⟩
        intro h2 hle hlt
        by_cases he : h2 = a
        · subst he; exact hcp
        · exact hh5 h2 (by omega) hlt
      | some p =>
        obtain ⟨ms0, hex, _⟩ := cp_extract_ok db init a p hcp
        rw [hcp] at hd
        dsimp only at hd
        rw [hex] at hd
        have hpm : p = path ∧ ms0 = ms := by
          have h1 := Option.some_inj.mp hd
          have h2 := Option.some_inj.mp h1
          exact ⟨congrArg Prod.fst h2, congrArg Prod.snd h2⟩
        obtain ⟨rfl, rfl⟩ := hpm
        exact ⟨a, le_refl a, by omega, hcp, hex, fun h2 hle hlt => absurd hlt (by omega)⟩

lemma pipeline_solution_nonempty (C : Nat) (init : BallSortState)
    (d fuel : Nat) (ms : List Move)
    (h : solve_pipeline C init d fuel = some (SolveResult.solution ms)) :
    ms ≠ [] := by
  unfold solve_pipeline at h
  cases hb : build_graph C init d fuel with
  | none => rw [hb] at h; cases h
  | some db =>
    rw [hb] at h
    dsimp only at h
    cases hd : driver_loop db init (horizons d) with
    | none => rw [hd] at h; cases h
    | some o =>
      cases o with
      | none =>
        rw [hd] at h
        dsimp only at h
        cases h
      | some pm =>
        obtain ⟨path, ms0⟩ := pm
        rw [hd] at h
        dsimp only at h
        have hms : ms0 = ms := by
          have := Option.some_inj.mp h
          cases this
          rfl
        subst hms
        have hd2 : driver_loop db init ((List.range d).map (· + 1))
            = some (some (path, ms0)) := hd
        obtain ⟨hh, hh1, hh2, hh3, hh4, hh5⟩ :=
          driver_loop_first db init d 1 path ms0 hd2
        obtain ⟨ms1, hex1, hlen1⟩ := cp_extract_ok db init hh path hh3
        have : ms1 = ms0 := Option.some_inj.mp (hex1.symm.trans hh4)
        subst this
        intro hnil
        rw [hnil] at hlen1
        simp at hlen1
        omega

-- sanity checks (concrete evaluations of the embedding)
example : is_solved [[1, 1], []] = true := by decide
example : is_solved [[1, 2]] = false := by decide
example : get_legal_moves 2 [[1, 1], []] = [⟨0, 1, 1⟩] := by decide
example : apply_move [[1, 1], []] ⟨0, 1, 1⟩ = some [[1], [1]] := by decide
example : apply_move [[], [1]] ⟨0, 1, 9⟩ = none := by decide
example : apply_move [[1, 2]] ⟨0, 0, 2⟩ = some [[1, 2]] := by decide
example : build_graph 2 [[1, 1], []] 1 100 =
    some ⟨[[[1, 1], []], [[1], [1]]], [(1, 2, ⟨0, 1, 1⟩)]⟩ := by decide
example : solve_pipeline 2 [[1, 1], []] 1 100 =
    some (SolveResult.solution [⟨0, 1, 1⟩]) := by decide
example : solve_pipeline 2 [[1, 1], []] 0 100 = some SolveResult.noSolution := by
  decide

/-! Claim theorems. -/

/-- C2: for every configuration `s`, `get_legal_moves` returns exactly the
moves `(src, dst, color)` with `src ≠ dst`, tube `src` non-empty, tube
`dst` holding fewer than `C` balls, and tube `dst` empty or with top
color equal to the top color of tube `src`; the `color` field equals the
top color of tube `src`, and no move with `src = dst` is emitted. -/
theorem claim_C2_legal_moves (C : Nat) (s : BallSortState) (m : Move) :
    m ∈ get_legal_moves C s ↔
      ∃ ts td, s[m.src]? = some ts ∧ s[m.dst]? = some td ∧
        m.src ≠ m.dst ∧ ts ≠ [] ∧ td.length < C ∧
        (td = [] ∨ td.getLast? = ts.getLast?) ∧ some m.color = ts.getLast? :=
  mem_get_legal_moves C s m

/-- C3: `is_solved` returns true iff every non-empty tube holds a single
repeated color: all balls of each tube are pairwise equal, empty tubes
impose no constraint, and no condition relates distinct tubes. -/
theorem claim_C3_is_solved (s : BallSortState) :
    is_solved s = true ↔ ∀ tube ∈ s, ∀ x ∈ tube, ∀ y ∈ tube, x = y :=
  is_solved_iff s

/-- C4, counterexample: the claim says `apply_move` fails whenever the
destination tube is at capacity `MAX_CAPACITY`, but on a destination
tube of length `MAX_CAPACITY` the code silently returns a configuration
(with the destination exceeding capacity). -/
theorem claim_C4_counterexample :
    apply_move [[2, 2, 2, 2, 2, 2], [1]] (Move.mk 1 0 1)
        = some [[2, 2, 2, 2, 2, 2, 1], []] ∧
    ([2, 2, 2, 2, 2, 2] : List Nat).length = MAX_CAPACITY := by decide

/-- C4, amended: `apply_move` fails exactly when the source tube is
missing or empty or the destination tube is missing; it performs no
capacity check on the destination. -/
theorem claim_C4_amended (s : BallSortState) (m : Move) :
    apply_move s m = none ↔
      s[m.src]? = none ∨ s[m.src]? = some [] ∨ s[m.dst]? = none :=
  apply_move_eq_none_iff s m

/-- C5: on a configuration whose tubes all have length at most `C`,
every move returned by `get_legal_moves` applies without failure and
yields a configuration whose tubes all still have length at most `C`. -/
theorem claim_C5_safety (C : Nat) (s : BallSortState) (m : Move)
    (hcap : ∀ t ∈ s, t.length ≤ C) (hm : m ∈ get_legal_moves C s) :
    ∃ r, apply_move s m = some r ∧ ∀ t ∈ r, t.length ≤ C :=
  legal_apply_safe C s m hcap hm

/-- Witness for C5 at a concrete input. -/
theorem claim_C5_witness :
    ∃ r, apply_move [[1], []] (Move.mk 0 1 1) = some r ∧ ∀ t ∈ r, t.length ≤ 2 :=
  claim_C5_safety 2 [[1], []] (Move.mk 0 1 1) (by decide) (by decide)

/-- C10, counterexample: for the move `(0, 0, 2)` (source equals
destination) on `[[1, 2]]` the source tube is non-empty, yet the result
leaves tube 0 unchanged, not equal to its old value with the top ball
removed as the claim demands. -/
theorem claim_C10_counterexample :
    apply_move [[1, 2]] (Move.mk 0 0 2) = some [[1, 2]] ∧
    ¬ ([1, 2] : List Nat) = ([1, 2] : List Nat).dropLast := by decide

/-- C10, amended: for distinct in-range tube indices and a non-empty
source tube, `apply_move` succeeds, preserves the number of tubes,
leaves every other tube unchanged, removes the top ball of the source,
appends it on the destination, and preserves the multiset of balls. -/
theorem claim_C10_frame (s : BallSortState) (m : Move) (ts : List Nat)
    (hne : m.src ≠ m.dst) (hdlt : m.dst < s.length)
    (hts : s[m.src]? = some ts) (htsne : ts ≠ []) :
    ∃ r b, apply_move s m = some r ∧ ts.getLast? = some b ∧
      r.length = s.length ∧
      (∀ i, i ≠ m.src → i ≠ m.dst → r[i]? = s[i]?) ∧
      r[m.src]? = some ts.dropLast ∧
      r[m.dst]? = (s[m.dst]?).map (fun td => td ++ [b]) ∧
      ballsOf r = ballsOf s :=
  apply_move_spec s m ts hne hdlt hts htsne

/-- Witness for the amended C10 at a concrete input. -/
theorem claim_C10_witness :
    ∃ r b, apply_move [[1, 2], [3]] (Move.mk 0 1 2) = some r ∧
      ([1, 2] : List Nat).getLast? = some b ∧
      r.length = ([[1, 2], [3]] : BallSortState).length ∧
      (∀ i, i ≠ (Move.mk 0 1 2).src → i ≠ (Move.mk 0 1 2).dst →
        r[i]? = ([[1, 2], [3]] : BallSortState)[i]?) ∧
      r[(Move.mk 0 1 2).src]? = some ([1, 2] : List Nat).dropLast ∧
      r[(Move.mk 0 1 2).dst]?
        = (([[1, 2], [3]] : BallSortState)[(Move.mk 0 1 2).dst]?).map
            (fun td => td ++ [b]) ∧
      ballsOf r = ballsOf [[1, 2], [3]] :=
  claim_C10_frame [[1, 2], [3]] (Move.mk 0 1 2) [1, 2] (by decide) (by decide)
    (by decide) (by decide)

/-- C6: interning is idempotent and identities are stable.  A second
`insert_state` of the same configuration returns the same identity (and
leaves the store unchanged); after any later sequence of `insert_state`
calls the identity still maps to the original configuration; and any
configuration later receiving that identity must be that same
configuration (an identity is never reassigned). -/
theorem claim_C6_intern_stable (db : GraphDB) (s : BallSortState)
    (later : List BallSortState) (t : BallSortState) :
    (insert_state (insert_state db s).1 s).2 = (insert_state db s).2 ∧
    get_state_by_id (insert_states (insert_state db s).1 later)
        (insert_state db s).2 = some s ∧
    ((insert_state (insert_states (insert_state db s).1 later) t).2
        = (insert_state db s).2 → t = s) := by
  refine ⟨(insert_state_idem db s).1, ?_, ?_⟩
  · exact get_state_by_id_insert_states _ later _ _ (insert_state_lookup db s)
  · intro heq
    have hstab := get_state_by_id_insert_states _ later _ _ (insert_state_lookup db s)
    have hstab2 := get_state_by_id_insert
      (insert_states (insert_state db s).1 later) t _ _ hstab
    have hlook := insert_state_lookup (insert_states (insert_state db s).1 later) t
    rw [heq] at hlook
    exact Option.some_inj.mp (hlook.symm.trans hstab2)

/-- Witness for C6 at a concrete store and configurations. -/
theorem claim_C6_witness :
    (insert_state (insert_state emptyDB [[1]]).1 [[1]]).2
        = (insert_state emptyDB [[1]]).2 ∧
    get_state_by_id (insert_states (insert_state emptyDB [[1]]).1 [[[2]]])
        (insert_state emptyDB [[1]]).2 = some [[1]] ∧
    ((insert_state (insert_states (insert_state emptyDB [[1]]).1 [[[2]]]) [[1]]).2
        = (insert_state emptyDB [[1]]).2 → ([[1]] : BallSortState) = [[1]]) :=
  claim_C6_intern_stable emptyDB [[1]] [[[2]]] [[1]]

/-- C7: after `build_graph` runs with depth ceiling `d` (from a fresh
store, with any fuel), every stored state is reachable from the initial
configuration by a sequence of legal moves of length at most `d`; in
particular no interned configuration has shortest legal-move distance
exceeding `d`. -/
theorem claim_C7_bounded_reach (C : Nat) (init : BallSortState) (d fuel : Nat)
    (db : GraphDB) (h : build_graph C init d fuel = some db) :
    ∀ s ∈ db.states, ∃ ws, ws.length ≤ d ∧ LegalPath C init ws s :=
  (build_graph_inv C init d fuel db h).1

/-- Witness for C7: the Scenario A graph at ceiling 1 stores
`[[1], [1]]`, reachable in at most one legal move. -/
theorem claim_C7_witness :
    ∃ ws, ws.length ≤ 1 ∧ LegalPath 2 [[1, 1], []] ws [[1], [1]] :=
  claim_C7_bounded_reach 2 [[1, 1], []] 1 100 dbA (by decide) [[1], [1]] (by decide)

/-- C9: for any graph produced by `build_graph` and any state-identity
path whose consecutive pairs are all recorded transitions, the move list
returned by `extract_moves` replays via `apply_move` from the first
identity's configuration exactly to the last identity's configuration. -/
theorem claim_C9_round_trip (C : Nat) (init : BallSortState) (d fuel : Nat)
    (db : GraphDB) (hbuild : build_graph C init d fuel = some db)
    (path : List Nat) (i0 ik : Nat) (s0 sk : BallSortState)
    (h0 : path.head? = some i0) (hk : path.getLast? = some ik)
    (hs0 : get_state_by_id db i0 = some s0) (hsk : get_state_by_id db ik = some sk)
    (hrec : PairsRecorded db path) :
    ∃ ms, extract_moves db path = some ms ∧ applyMoves s0 ms = some sk :=
  extract_moves_replay db (build_graph_inv C init d fuel db hbuild).2 path
    i0 ik s0 sk h0 hk hs0 hsk hrec

/-- Witness for C9 on the Scenario A graph and the recorded path. -/
theorem claim_C9_witness :
    ∃ ms, extract_moves dbA [1, 2] = some ms ∧
      applyMoves [[1, 1], []] ms = some [[1], [1]] :=
  claim_C9_round_trip 2 [[1, 1], []] 1 100 dbA (by decide) [1, 2] 1 2
    [[1, 1], []] [[1], [1]] (by decide) (by decide) (by decide) (by decide)
    ⟨⟨Move.mk 0 1 1, by decide⟩, trivial⟩

/-- C1: the iterative-deepening driver over horizons `1..ceiling` stops
at the first horizon whose path solver call returns a satisfying
assignment (every strictly smaller horizon at least 1 is infeasible:
no satisfying assignment of the CP model exists there), and when it
reports overall failure every horizon up to the ceiling is infeasible. -/
theorem claim_C1_iterative_deepening (db : GraphDB) (init : BallSortState)
    (ceiling : Nat) :
    (∀ path ms, driver_loop db init (horizons ceiling) = some (some (path, ms)) →
      ∃ h, 1 ≤ h ∧ h ≤ ceiling ∧ cp_solve db init h = some (some path) ∧
        extract_moves db path = some ms ∧
        ∀ h2 iid, 1 ≤ h2 → h2 < h → get_initial_state_id db init = some iid →
          ¬ HorizonFeasible db (iid - 1) h2) ∧
    (driver_loop db init (horizons ceiling) = some none →
      ∀ h iid, 1 ≤ h → h ≤ ceiling → get_initial_state_id db init = some iid →
        ¬ HorizonFeasible db (iid - 1) h) := by
  constructor
  · intro path ms hd
    have hd2 : driver_loop db init ((List.range ceiling).map (· + 1))
        = some (some (path, ms)) := hd
    obtain ⟨h, h1, h2, h3, h4, h5⟩ :=
      driver_loop_first db init ceiling 1 path ms hd2
    refine ⟨h, h1, by omega, h3, h4, ?_⟩
    intro h6 iid hle hlt hiid
    exact cp_solve_none_not_feasible db init h6 iid (h5 h6 hle hlt) hiid
  · intro hd h iid h1 h2 hiid
    have hmem : h ∈ horizons ceiling := by
      unfold horizons
      simp only [List.mem_map, List.mem_range]
      exact ⟨h - 1, by omega, by omega⟩
    exact cp_solve_none_not_feasible db init h iid
      (driver_loop_fail db init (horizons ceiling) hd h hmem) hiid

/-- Witness for C1 on the Scenario A graph with ceiling 1. -/
theorem claim_C1_witness :
    ∃ h, 1 ≤ h ∧ h ≤ 1 ∧ cp_solve dbA [[1, 1], []] h = some (some [1, 2]) ∧
      extract_moves dbA [1, 2] = some [Move.mk 0 1 1] ∧
      ∀ h2 iid, 1 ≤ h2 → h2 < h →
        get_initial_state_id dbA [[1, 1], []] = some iid →
        ¬ HorizonFeasible dbA (iid - 1) h2 :=
  (claim_C1_iterative_deepening dbA [[1, 1], []] 1).1 [1, 2] [Move.mk 0 1 1]
    (by decide)

/-- C8, counterexample: on the already-solved Scenario A instance
(`[[1, 1], []]`, capacity 2) at ceiling 1 (which is at least 0), the full
pipeline returns a ONE-move solution, not the empty move list the claim
demands. -/
theorem claim_C8_counterexample :
    solve_pipeline 2 [[1, 1], []] 1 100
        = some (SolveResult.solution [Move.mk 0 1 1]) ∧
    SolveResult.solution [Move.mk 0 1 1] ≠ SolveResult.solution [] := by decide

/-- C8, amended: the driver starts at horizon 1 and so never returns an
empty move list; on the Scenario A instance the pipeline reports failure
at ceiling 0 and returns the one-move solution `Move(0, 1, 1)` at
ceiling 1. -/
theorem claim_C8_amended :
    (∀ d fuel ms, solve_pipeline 2 [[1, 1], []] d fuel
        = some (SolveResult.solution ms) → ms ≠ []) ∧
    solve_pipeline 2 [[1, 1], []] 0 100 = some SolveResult.noSolution ∧
    solve_pipeline 2 [[1, 1], []] 1 100
        = some (SolveResult.solution [Move.mk 0 1 1]) := by
  refine ⟨?_, by decide, by decide⟩
  intro d fuel ms h
  exact pipeline_solution_nonempty 2 [[1, 1], []] d fuel ms h

/-- Witness for the amended C8, discharging its hypothesis at ceiling 1. -/
theorem claim_C8_witness : ([Move.mk 0 1 1] : List Move) ≠ [] :=
  claim_C8_amended.1 1 100 [Move.mk 0 1 1] (by decide)

end BallSort
